import Mathlib

set_option maxHeartbeats 1000000

/-!
Shallow embedding of the matheditor core:
- `math.ts`: `MathExpression` (ordered node list) and `MathNode` (id, variant, children),
- `cursor.ts`: `CursorLocation` (path of links) and `Cursor` (location + insertion index),
- `mathelements.ts`: the concrete node variants and their LaTeX templates.

JavaScript in-place mutation is modelled by functional update of the root tree along
the cursor path.  A thrown `Error` is modelled by the `err` field of `OpResult`; the
`state` field holds the state at the moment of the throw (mutations already applied
before the throw are kept, matching JS semantics).  `notifies` counts the number of
`notifyUpdates()` invocations; each such invocation calls every registered `onUpdate`
callback once, in registration order.
-/

/-- Variant tag of a math node.  Each constructor corresponds to one concrete class of
`math.ts`/`mathelements.ts` (`MathCharacter`, `Fraction`, `IntegralType`, `EvaluatedFrom`,
`Sum`, `Product`, `BigUnion`, `BigIntersection`, `SubscriptableFunction`,
`CommandEnclosable`, `Limit`, `Bracket`, `Superscript`, `Subscript`). -/
inductive NodeKind where
  | character (character : String)
  | fraction
  | integralType (commandName : String)
  | evaluatedFrom
  | sum
  | product
  | bigUnion
  | bigIntersection
  | subscriptableFunction (functionName : String)
  | commandEnclosable (command : String)
  | limit
  | bracket (opening closing : String)
  | superscript
  | subscript
deriving DecidableEq

/-- A math node: stable id (`MathNode.id`, provisioned at construction), variant tag, and
the child-expression list (field `children: MathExpression[]`).  A `MathExpression`'s only
state is its ordered node array `_nodes`, so an expression is embedded as the node list
itself. -/
inductive MathNode where
  | mk (id : String) (kind : NodeKind) (children : List (List MathNode))

/-- An expression is its ordered list of nodes (class `MathExpression`, field `_nodes`). -/
abbrev MathExpression := List MathNode

def MathNode.id : MathNode → String
  | .mk i _ _ => i

def MathNode.kind : MathNode → NodeKind
  | .mk _ k _ => k

def MathNode.children : MathNode → List MathExpression
  | .mk _ _ cs => cs

/-- `new MathCharacter(character)`: atomic node, no children. -/
def MathCharacter (id character : String) : MathNode :=
  .mk id (.character character) []

/-- `new Fraction()`: two fresh empty child expressions (`DoubleChildMathNode`). -/
def Fraction (id : String) : MathNode :=
  .mk id .fraction [[], []]

/-- `new IntegralType(commandName)` (`DoubleChildMathNode`). -/
def IntegralType (id commandName : String) : MathNode :=
  .mk id (.integralType commandName) [[], []]

/-- `new Bracket(opening, closing)`: one fresh empty child (`SingleChildMathNode`).
Named `BracketNode` because `Bracket` is taken by Mathlib. -/
def BracketNode (id opening closing : String) : MathNode :=
  .mk id (.bracket opening closing) [[]]

/-- `new Superscript()`: one fresh empty child expression. -/
def Superscript (id : String) : MathNode :=
  .mk id .superscript [[]]

/-- `new Subscript()`: one fresh empty child expression. -/
def Subscript (id : String) : MathNode :=
  .mk id .subscript [[]]

/-- `MathExpression.insertNode(before, node)`: `this._nodes.splice(before, 0, node)`.
JS `splice` clamps an index past the end to the end, so the node is appended there. -/
def insertNode (e : MathExpression) (before : Nat) (node : MathNode) : MathExpression :=
  e.take before ++ node :: e.drop before

/-- `MathExpression.removeNthNode(index)`: throws for `index < 0 || index >= length`,
else `splice(index, 1)`.  The index is an `Int` because the caller
`deleteCharacterAtCursor` passes `this._cursorIndex - 1`, which is `-1` at index 0. -/
def removeNthNode (e : MathExpression) (index : Int) : Except String MathExpression :=
  if index < 0 ∨ (e.length : Int) ≤ index then
    .error "Attempted to remove node out of bounds"
  else
    .ok (e.eraseIdx index.toNat)

/-- One element of the cursor path: which node of the current expression is descended
into, and which of its child expressions (`CursorPathLink`; the `_i` member only records
the list position and is implicit in the list embedding). -/
structure CursorPathLink where
  nodeIndex : Nat
  childIndex : Nat
deriving DecidableEq

/-- Resolve a path from an expression down to the child expression it addresses
(`CursorLocation.resolveLinkInfo(...).enclosingExpression`, and
`getEnclosingExpression` for the full path).  `none` models the TypeError the JS code
hits when an index along the way is invalid. -/
def getExprAt (e : MathExpression) : List CursorPathLink → Option MathExpression
  | [] => some e
  | l :: rest =>
    match e[l.nodeIndex]? with
    | none => none
    | some n =>
      match n.children[l.childIndex]? with
      | none => none
      | some c => getExprAt c rest

/-- `CursorLocation.resolveLinkInfo(topLevelLink).enclosingNode`: walk the whole path and
return the node addressed by its last link.  Faithfull to the JS loop: the last link's
`childIndex` is never dereferenced when only the node is consumed, so it is not
checked here. -/
def resolveEnclosingNode (e : MathExpression) : List CursorPathLink → Option MathNode
  | [] => none
  | l :: rest =>
    match e[l.nodeIndex]? with
    | none => none
    | some n =>
      match rest with
      | [] => some n
      | _ :: _ =>
        match n.children[l.childIndex]? with
        | none => none
        | some c => resolveEnclosingNode c rest

/-- Functional update: replace the child expression addressed by the path.  This models
the effect, on the (immutable) tree value, of JS mutating the expression object that the
path resolves to. -/
def setExprAt (e : MathExpression) : List CursorPathLink → MathExpression → Option MathExpression
  | [], x => some x
  | l :: rest, x =>
    match e[l.nodeIndex]? with
    | none => none
    | some n =>
      match n.children[l.childIndex]? with
      | none => none
      | some c =>
        match setExprAt c rest x with
        | none => none
        | some c' => some (e.set l.nodeIndex (.mk n.id n.kind (n.children.set l.childIndex c')))

/-- The `direction` argument of `enterNode`/`leaveNode` (`"left" | "right"`). -/
inductive Direction where
  | left
  | right
deriving DecidableEq

/-- Cursor state: the root expression, the `CursorLocation` path, the insertion index
`_cursorIndex`, and the presentation flags `_focused` and `_blinkState`. -/
structure Cursor where
  root : MathExpression
  path : List CursorPathLink
  cursorIndex : Nat
  focused : Bool
  blinkState : Bool

/-- The state right after `new Cursor(root, ...)`. -/
def Cursor.initial (root : MathExpression) : Cursor :=
  { root := root, path := [], cursorIndex := 0, focused := false, blinkState := true }

/-- Result of one cursor operation: the state when the operation returns (or throws),
how many times `notifyUpdates()` ran, and the error message if it threw. -/
structure OpResult where
  state : Cursor
  notifies : Nat
  err : Option String

/-- A trailing `this.notifyUpdates()`: runs only if no exception was thrown before it. -/
def OpResult.thenNotify (r : OpResult) : OpResult :=
  match r.err with
  | none => { r with notifies := r.notifies + 1 }
  | some _ => r

/-- Sequencing: run `f` on the state unless an exception is already propagating. -/
def OpResult.andThen (r : OpResult) (f : Cursor → OpResult) : OpResult :=
  match r.err with
  | some _ => r
  | none =>
    let r2 := f r.state
    { state := r2.state, notifies := r.notifies + r2.notifies, err := r2.err }

/-- `Cursor.enterNode(nodeIndex, childIndex, direction)`: push the link, then set the
index to `0` (`"right"`) or to the length of the newly entered expression (`"left"`),
then notify.  The push happens before the resolution, so on a TypeError the link is
already on the path. -/
def Cursor.enterNode (s : Cursor) (nodeIndex childIndex : Nat) (direction : Direction) :
    OpResult :=
  let s1 := { s with path := s.path ++ [⟨nodeIndex, childIndex⟩] }
  match direction with
  | .right => { state := { s1 with cursorIndex := 0 }, notifies := 1, err := none }
  | .left =>
    match getExprAt s1.root s1.path with
    | some e => { state := { s1 with cursorIndex := e.length }, notifies := 1, err := none }
    | none => { state := s1, notifies := 0, err := some "TypeError" }

/-- `Cursor.leaveNode(direction)`: pop the last link (throws `EmptyPath` at root), set
the index to the popped `nodeIndex` (`"left"`) or `nodeIndex + 1` (`"right"`), notify. -/
def Cursor.leaveNode (s : Cursor) (direction : Direction) : OpResult :=
  match s.path.getLast? with
  | none =>
    { state := s, notifies := 0,
      err := some "Cannot pop cursor path link off stack; stack is empty" }
  | some link =>
    { state :=
        { s with
          path := s.path.dropLast,
          cursorIndex :=
            match direction with
            | .left => link.nodeIndex
            | .right => link.nodeIndex + 1 },
      notifies := 1, err := none }

/-- Common body of `insertCharacterAtCursor`/`insertNodeAtCursor`:
`getEnclosingExpression().insertNode(_cursorIndex, node)` then increment and notify. -/
def Cursor.insertAtCursorCore (s : Cursor) (node : MathNode) : OpResult :=
  match getExprAt s.root s.path with
  | none => { state := s, notifies := 0, err := some "TypeError" }
  | some e =>
    match setExprAt s.root s.path (insertNode e s.cursorIndex node) with
    | some root' =>
      { state := { s with root := root', cursorIndex := s.cursorIndex + 1 },
        notifies := 1, err := none }
    | none => { state := s, notifies := 0, err := some "TypeError" }

/-- `Cursor.insertCharacterAtCursor(character)`: insert a fresh `MathCharacter` at
`_cursorIndex` into the enclosing expression, increment the index, notify.  `freshId`
stands for the randomly provisioned node id. -/
def Cursor.insertCharacterAtCursor (s : Cursor) (character freshId : String) : OpResult :=
  s.insertAtCursorCore (MathCharacter freshId character)

/-- `Cursor.insertNodeAtCursor(node)`: like character insertion but with an arbitrary
node; the source returns the index of the inserted node (`_cursorIndex - 1` after the
increment, i.e. the pre-call `_cursorIndex`). -/
def Cursor.insertNodeAtCursor (s : Cursor) (node : MathNode) : OpResult :=
  s.insertAtCursorCore node

/-- `Cursor.deleteCharacterAtCursor()`: `removeNthNode(_cursorIndex - 1)` on the
enclosing expression (throws out-of-bounds when `_cursorIndex = 0` before any mutation),
then decrement and notify. -/
def Cursor.deleteCharacterAtCursor (s : Cursor) : OpResult :=
  match getExprAt s.root s.path with
  | none => { state := s, notifies := 0, err := some "TypeError" }
  | some e =>
    match removeNthNode e ((s.cursorIndex : Int) - 1) with
    | .error msg => { state := s, notifies := 0, err := some msg }
    | .ok e' =>
      match setExprAt s.root s.path e' with
      | some root' =>
        { state := { s with root := root', cursorIndex := s.cursorIndex - 1 },
          notifies := 1, err := none }
      | none => { state := s, notifies := 0, err := some "TypeError" }

/-- `Cursor.removeEnclosingNode()`: throws `NoEnclosingNode` at root (before any
mutation); otherwise pops the path, removes the popped link's node from the expression
that has become the enclosing one, sets the index to the removed node's former index,
and notifies.  The pop happens before the removal, so a failing removal would leave the
pop applied (kept faithfully in the error states). -/
def Cursor.removeEnclosingNode (s : Cursor) : OpResult :=
  match s.path.getLast? with
  | none => { state := s, notifies := 0, err := some "No enclosing node to remove" }
  | some link =>
    let p := s.path.dropLast
    match getExprAt s.root p with
    | none => { state := { s with path := p }, notifies := 0, err := some "TypeError" }
    | some e =>
      match removeNthNode e (link.nodeIndex : Int) with
      | .error msg => { state := { s with path := p }, notifies := 0, err := some msg }
      | .ok e' =>
        match setExprAt s.root p e' with
        | some root' =>
          { state := { s with root := root', path := p, cursorIndex := link.nodeIndex },
            notifies := 1, err := none }
        | none => { state := { s with path := p }, notifies := 0, err := some "TypeError" }

/-- `Cursor.moveRight()`: at the end of the enclosing expression leave in the trailing
sense (no-op at root); otherwise enter the next node's first child from the leading side
if it has children, else increment.  A final `notifyUpdates()` always runs unless an
exception propagated. -/
def Cursor.moveRight (s : Cursor) : OpResult :=
  let r : OpResult :=
    match getExprAt s.root s.path with
    | none => { state := s, notifies := 0, err := some "TypeError" }
    | some e =>
      if s.cursorIndex = e.length then
        if s.path.isEmpty then { state := s, notifies := 0, err := none }
        else s.leaveNode .right
      else
        match e[s.cursorIndex]? with
        | none => { state := s, notifies := 0, err := some "TypeError" }
        | some nextNode =>
          if nextNode.children.length ≠ 0 then s.enterNode s.cursorIndex 0 .right
          else { state := { s with cursorIndex := s.cursorIndex + 1 }, notifies := 0,
                 err := none }
  r.thenNotify

/-- `Cursor.moveLeft()`: symmetric to `moveRight`; at index 0 leave in the leading sense
(no-op at root); otherwise enter the previous node's first child from the trailing side
if it has children, else decrement. -/
def Cursor.moveLeft (s : Cursor) : OpResult :=
  let r : OpResult :=
    match getExprAt s.root s.path with
    | none => { state := s, notifies := 0, err := some "TypeError" }
    | some e =>
      if s.cursorIndex = 0 then
        if s.path.isEmpty then { state := s, notifies := 0, err := none }
        else s.leaveNode .left
      else
        match e[s.cursorIndex - 1]? with
        | none => { state := s, notifies := 0, err := some "TypeError" }
        | some previousNode =>
          if previousNode.children.length ≠ 0 then s.enterNode (s.cursorIndex - 1) 0 .left
          else { state := { s with cursorIndex := s.cursorIndex - 1 }, notifies := 0,
                 err := none }
  r.thenNotify

/-- `Cursor.moveDown()`: when not at root and the top link's child index is not the last
child of the enclosing node, leave in the leading sense and re-enter the same node at
child index `c + 1` from the leading side.  No trailing notification exists in the
source, so the no-op cases notify nobody.  The JS guard `c < children.length - 1` is
over the integers; with `c ≥ 0` it agrees with the truncated `Nat` subtraction used
here also when `children.length = 0`. -/
def Cursor.moveDown (s : Cursor) : OpResult :=
  match s.path.getLast? with
  | none => OpResult.mk s 0 none
  | some link =>
    match resolveEnclosingNode s.root s.path with
    | none => OpResult.mk s 0 (some "TypeError")
    | some enclosingNode =>
      if link.childIndex < enclosingNode.children.length - 1 then
        (s.leaveNode .left).andThen fun s1 =>
          s1.enterNode link.nodeIndex (link.childIndex + 1) .left
      else OpResult.mk s 0 none

/-- `Cursor.moveUp()`: symmetric to `moveDown`; when the top link's child index is
positive, leave in the leading sense and re-enter the same node at child index `c - 1`
from the trailing side. -/
def Cursor.moveUp (s : Cursor) : OpResult :=
  match s.path.getLast? with
  | none => OpResult.mk s 0 none
  | some link =>
    match resolveEnclosingNode s.root s.path with
    | none => OpResult.mk s 0 (some "TypeError")
    | some _ =>
      if link.childIndex > 0 then
        (s.leaveNode .left).andThen fun s1 =>
          s1.enterNode link.nodeIndex (link.childIndex - 1) .right
      else OpResult.mk s 0 none

/-! ## Rendering (`renderAsLaTeX`)

The cursor marker is spliced into exactly the expression that the cursor's path
addresses.  The source decides this by object identity
(`cursor.getEnclosingExpression() === this`); since the tree is alias-free (each
expression object is owned by exactly one node or the root), identity of objects
coincides with identity of tree positions, which the embedding tracks by threading
the relative remainder of the cursor path down the tree:
`some (restPath, pos)` means "the cursor lives in this expression's subtree, reached
via `restPath`, at insertion index `pos`"; `none` means the cursor is elsewhere. -/

/-- `node-${id}` wrapped by `\htmlId` — `MathNode.getHTMLPrefix` in the source
(`\x7b`/`\x7d` are the literal brace characters). -/
def htmlIdOf (id : String) : String :=
  "\\htmlId\x7bnode-" ++ id ++ "\x7d"

/-- `Cursor.renderAsLatex()`: empty when unfocused, otherwise a marked glyph whose
color alternates with the blink phase. -/
def cursorMarker (focused blinkState : Bool) : String :=
  if focused = false then ""
  else
    "\\!\\htmlId\x7b__cursor\x7d\x7b\\textcolor\x7b" ++
      (if blinkState then "black" else "white") ++ "\x7d\x7b|\x7d\x7d"

def Cursor.renderAsLatex (s : Cursor) : String :=
  cursorMarker s.focused s.blinkState

/-- The relative cursor position handed to an expression being rendered. -/
abbrev RelCursor := Option (List CursorPathLink × Nat)

/-- Cursor information handed to the node at index `i` of an expression: the child
index the cursor descends into, the rest of the path, and the insertion index. -/
def curForNode (cur : RelCursor) (i : Nat) : Option (Nat × List CursorPathLink × Nat) :=
  match cur with
  | some (l :: restPath, pos) =>
    if l.nodeIndex = i then some (l.childIndex, restPath, pos) else none
  | _ => none

/-- Cursor information handed to child expression `j` of a node. -/
def curForChild (cur : Option (Nat × List CursorPathLink × Nat)) (j : Nat) : RelCursor :=
  match cur with
  | some (ci, restPath, pos) => if ci = j then some (restPath, pos) else none
  | none => none

mutual

/-- `MathExpression.renderAsLaTeX(cursor)`: map every node through its render, splice
the cursor's marker at `getCursorIndex()` iff this expression is the cursor's enclosing
expression, join with a space, and fall back to the placeholder `~` when the joined
string is empty. -/
def renderExpr (nodes : MathExpression) (cur : RelCursor) (marker : String) : String :=
  let parts := renderParts nodes 0 cur marker
  let parts2 :=
    match cur with
    | some ([], pos) => parts.take pos ++ marker :: parts.drop pos
    | _ => parts
  let rendered := String.intercalate " " parts2
  if rendered = "" then "~" else rendered

/-- `this._nodes.map((node) => node.renderAsLaTeX(cursor))`, with `i` the index of the
first node of `nodes` in the enclosing expression. -/
def renderParts (nodes : List MathNode) (i : Nat) (cur : RelCursor) (marker : String) :
    List String :=
  match nodes with
  | [] => []
  | n :: rest => renderNode n (curForNode cur i) marker :: renderParts rest (i + 1) cur marker

/-- Renders of all child expressions of a node, in order (`j` is the child index of the
head of `cs`). -/
def renderChildren (cs : List (List MathNode)) (j : Nat)
    (cur : Option (Nat × List CursorPathLink × Nat)) (marker : String) : List String :=
  match cs with
  | [] => []
  | c :: rest =>
    renderExpr c (curForChild cur j) marker :: renderChildren rest (j + 1) cur marker

/-- `Node.render(cursor)`, one template per variant (`mathelements.ts`).  A child access
`children[k]` is embedded as entry `k` of the rendered children (the constructors
guarantee the arity, so the default never fires for nodes the program builds). -/
def renderNode (n : MathNode) (cur : Option (Nat × List CursorPathLink × Nat))
    (marker : String) : String :=
  match n with
  | .mk id kind children =>
    let rc := renderChildren children 0 cur marker
    match kind with
    | .character c => htmlIdOf id ++ c
    | .fraction =>
      htmlIdOf id ++ "\x7b\\frac\x7b" ++ rc.getD 0 "" ++ "\x7d\x7b" ++ rc.getD 1 "" ++ "\x7d\x7d"
    | .integralType cmd =>
      htmlIdOf id ++ "\x7b\\displaystyle\\" ++ cmd ++ "_\x7b" ++ rc.getD 1 "" ++ "\x7d^\x7b" ++
        rc.getD 0 "" ++ "\x7d\x7d"
    | .evaluatedFrom =>
      htmlIdOf id ++ "\x7b\\displaystyle\x7b\\Large\\vert\x7d_\x7b" ++ rc.getD 1 "" ++
        "\x7d^\x7b" ++ rc.getD 0 "" ++ "\x7d\x7d"
    | .sum =>
      htmlIdOf id ++ "\x7b\\displaystyle\\sum_\x7b" ++ rc.getD 1 "" ++ "\x7d^\x7b" ++
        rc.getD 0 "" ++ "\x7d\x7d"
    | .product =>
      htmlIdOf id ++ "\x7b\\displaystyle\\prod_\x7b" ++ rc.getD 1 "" ++ "\x7d^\x7b" ++
        rc.getD 0 "" ++ "\x7d\x7d"
    | .bigUnion =>
      htmlIdOf id ++ "\x7b\\displaystyle\\bigcup_\x7b" ++ rc.getD 1 "" ++ "\x7d^\x7b" ++
        rc.getD 0 "" ++ "\x7d\x7d"
    | .bigIntersection =>
      htmlIdOf id ++ "\x7b\\displaystyle\\bigcap_\x7b" ++ rc.getD 1 "" ++ "\x7d^\x7b" ++
        rc.getD 0 "" ++ "\x7d\x7d"
    | .subscriptableFunction f =>
      htmlIdOf id ++ "\x7b\\displaystyle\\" ++ f ++ "_\x7b" ++ rc.getD 0 "" ++ "\x7d\x7d"
    | .commandEnclosable cmd =>
      htmlIdOf id ++ "\x7b" ++ cmd ++ "\x7b" ++ rc.getD 0 "" ++ "\x7d\x7d"
    | .limit =>
      htmlIdOf id ++ "\x7b\\displaystyle\\lim_\x7b" ++ rc.getD 0 "" ++ "\x7d\x7d"
    | .bracket o c =>
      htmlIdOf id ++ "\x7b\\kern-0.1em\\left" ++ o ++ rc.getD 0 "" ++ "\\right" ++ c ++ "\x7d"
    | .superscript =>
      htmlIdOf id ++ "\x7b\x7b\x7d^\x7b" ++ rc.getD 0 "" ++ "\x7d\x7d"
    | .subscript =>
      htmlIdOf id ++ "\x7b\x7b\x7d_\x7b" ++ rc.getD 0 "" ++ "\x7d\x7d"

end

/-- Render the whole document: root expression with the live cursor (the markup string
the host receives after every change). -/
def renderDocument (s : Cursor) : String :=
  renderExpr s.root (some (s.path, s.cursorIndex)) s.renderAsLatex

/-! ## Keyboard dispatch (`handleKeydown`) -/

/-- `ALPHANUM` from `util.ts`. -/
def ALPHANUM : String :=
  "abcdefghijklmnopqrstuvwxyzABCDEFGHIJKLMNOPQRSTUVWXYZ0123456789"

/-- `needle` occurs at the start of `hay`. -/
def leadsList (needle hay : List Char) : Bool :=
  match needle, hay with
  | [], _ => true
  | _ :: _, [] => false
  | a :: as, b :: bs => a = b && leadsList as bs

/-- `needle` occurs contiguously somewhere in `hay`. -/
def includesAux (needle : List Char) : List Char → Bool
  | [] => leadsList needle []
  | c :: rest => leadsList needle (c :: rest) || includesAux needle rest

/-- JS `hay.includes(needle)` (substring containment). -/
def strIncludes (hay needle : String) : Bool :=
  includesAux needle.data hay.data

/-- `Cursor.handleKeydown(event)`: reset the blink phase, notify, then dispatch on
`event.key`.  `freshId` stands for the id provisioned for any node the branch creates.
The `"\\"` branch only opens the DOM search menu and is embedded as the identity on
the cursor state. -/
def Cursor.handleKeydown (s : Cursor) (key freshId : String) : OpResult :=
  let s0 := { s with blinkState := true }
  let r : OpResult :=
    if strIncludes ALPHANUM key then s0.insertCharacterAtCursor key freshId
    else if strIncludes "!@#&-=+\x27:<>,.?|" key then s0.insertCharacterAtCursor key freshId
    else if key = "*" then s0.insertCharacterAtCursor "\\cdot" freshId
    else if key = "%" then s0.insertCharacterAtCursor "\\%" freshId
    else if key = "$" then s0.insertCharacterAtCursor "\\$" freshId
    else if key = " " then s0.insertCharacterAtCursor "~" freshId
    else if key = "Backspace" then
      if s0.cursorIndex = 0 then s0.removeEnclosingNode
      else s0.deleteCharacterAtCursor
    else if key = "\\" then { state := s0, notifies := 0, err := none }
    else if key = "(" then
      (s0.insertNodeAtCursor (BracketNode freshId "(" ")")).andThen fun s1 =>
        s1.enterNode s0.cursorIndex 0 .right
    else if key = "\x7b" then
      (s0.insertNodeAtCursor (BracketNode freshId "\\\x7b" "\\\x7d")).andThen fun s1 =>
        s1.enterNode s0.cursorIndex 0 .right
    else if key = "[" then
      (s0.insertNodeAtCursor (BracketNode freshId "[" "]")).andThen fun s1 =>
        s1.enterNode s0.cursorIndex 0 .right
    else if key = "/" then
      (s0.insertNodeAtCursor (Fraction freshId)).andThen fun s1 =>
        s1.enterNode s0.cursorIndex 0 .right
    else if key = "_" then
      (s0.insertNodeAtCursor (Subscript freshId)).andThen fun s1 =>
        s1.enterNode s0.cursorIndex 0 .right
    else if key = "^" then
      (s0.insertNodeAtCursor (Superscript freshId)).andThen fun s1 =>
        s1.enterNode s0.cursorIndex 0 .right
    else if key = "ArrowRight" then s0.moveRight
    else if key = "ArrowLeft" then s0.moveLeft
    else if key = "ArrowDown" then s0.moveDown
    else if key = "ArrowUp" then s0.moveUp
    else { state := s0, notifies := 0, err := none }
  { state := r.state, notifies := 1 + r.notifies, err := r.err }

/-! ## Resolution lemmas -/

@[simp]
theorem OpResult.thenNotify_state (r : OpResult) : r.thenNotify.state = r.state := by
  cases h : r.err <;> simp [OpResult.thenNotify, h]

@[simp]
theorem OpResult.thenNotify_err (r : OpResult) : r.thenNotify.err = r.err := by
  cases h : r.err <;> simp [OpResult.thenNotify, h]

theorem getExprAt_append (p q : List CursorPathLink) (e : MathExpression) :
    getExprAt e (p ++ q) = (getExprAt e p).bind (fun e' => getExprAt e' q) := by
  induction p generalizing e with
  | nil => simp [getExprAt]
  | cons l rest ih =>
    cases h1 : e[l.nodeIndex]? with
    | none => simp [getExprAt, h1]
    | some n =>
      cases h2 : n.children[l.childIndex]? with
      | none => simp [getExprAt, h1, h2]
      | some c => simp [getExprAt, h1, h2, ih c]

/-- Resolving a single link from an expression. -/
theorem getExprAt_single (l : CursorPathLink) (e : MathExpression) :
    getExprAt e [l] = (e[l.nodeIndex]?).bind (fun n => n.children[l.childIndex]?) := by
  cases h1 : e[l.nodeIndex]? with
  | none => simp [getExprAt, h1]
  | some n => cases h2 : n.children[l.childIndex]? <;> simp [getExprAt, h1, h2]

theorem resolveEnclosingNode_concat (p : List CursorPathLink) (l : CursorPathLink)
    (e : MathExpression) :
    resolveEnclosingNode e (p ++ [l]) =
      (getExprAt e p).bind (fun e' => e'[l.nodeIndex]?) := by
  induction p generalizing e with
  | nil =>
    cases h1 : e[l.nodeIndex]? <;> simp [resolveEnclosingNode, getExprAt, h1]
  | cons l' rest ih =>
    cases h1 : e[l'.nodeIndex]? with
    | none => simp [resolveEnclosingNode, getExprAt, h1]
    | some n =>
      cases h2 : n.children[l'.childIndex]? with
      | none =>
        cases rest <;> simp [resolveEnclosingNode, getExprAt, h1, h2]
      | some c =>
        have hL : resolveEnclosingNode e (l' :: (rest ++ [l])) =
            resolveEnclosingNode c (rest ++ [l]) := by
          cases rest <;> simp [resolveEnclosingNode, h1, h2]
        rw [show (l' :: rest) ++ [l] = l' :: (rest ++ [l]) from rfl, hL, ih c]
        simp [getExprAt, h1, h2]

theorem setExprAt_ok (p : List CursorPathLink) (e ep x : MathExpression)
    (h : getExprAt e p = some ep) :
    ∃ e', setExprAt e p x = some e' ∧ getExprAt e' p = some x := by
  induction p generalizing e with
  | nil => exact ⟨x, rfl, rfl⟩
  | cons l rest ih =>
    cases h1 : e[l.nodeIndex]? with
    | none => simp [getExprAt, h1] at h
    | some n =>
      cases h2 : n.children[l.childIndex]? with
      | none => simp [getExprAt, h1, h2] at h
      | some c =>
        have hrest : getExprAt c rest = some ep := by
          simpa [getExprAt, h1, h2] using h
        obtain ⟨c', hc', hgc'⟩ := ih c hrest
        have hci : l.childIndex < n.children.length :=
          (List.getElem?_eq_some_iff.mp h2).1
        refine ⟨e.set l.nodeIndex (.mk n.id n.kind (n.children.set l.childIndex c')), ?_, ?_⟩
        · simp only [setExprAt, h1, h2, hc']
        · have hset1 : (e.set l.nodeIndex
              (MathNode.mk n.id n.kind (n.children.set l.childIndex c')))[l.nodeIndex]? =
              some (MathNode.mk n.id n.kind (n.children.set l.childIndex c')) := by
            simp [List.getElem?_set_self', h1]
          have hset2 : (MathNode.mk n.id n.kind
              (n.children.set l.childIndex c')).children[l.childIndex]? = some c' := by
            simp only [MathNode.children, List.getElem?_set_self', h2]
            simp [List.getElem?_set_self', h2]
            exact ⟨c, h2⟩
          simp [getExprAt, hset1, hset2, hgc']

/-! ## The cursor invariant and operation characterizations -/

/-- The cursor invariant: the path resolves (every link indexes a valid node of the
expression reached by the shorter prefix and a valid child expression of that node) and
the insertion index satisfies `0 ≤ position ≤ length(enclosingExpression)`. -/
def Invariant (s : Cursor) : Prop :=
  ∃ e, getExprAt s.root s.path = some e ∧ s.cursorIndex ≤ e.length

/-- Stated precondition of `enterNode`: the indices address a real node of the enclosing
expression and a real child expression of that node. -/
def ValidEnter (s : Cursor) (nodeIndex childIndex : Nat) : Prop :=
  ∃ e n, getExprAt s.root s.path = some e ∧ e[nodeIndex]? = some n ∧
    childIndex < n.children.length

theorem invariant_concat {s : Cursor} {p : List CursorPathLink} {l : CursorPathLink}
    (hInv : Invariant s) (hp : s.path = p ++ [l]) :
    ∃ ep n c, getExprAt s.root p = some ep ∧ ep[l.nodeIndex]? = some n ∧
      n.children[l.childIndex]? = some c ∧ s.cursorIndex ≤ c.length := by
  obtain ⟨e, he, hlen⟩ := hInv
  rw [hp, getExprAt_append] at he
  obtain ⟨ep, hep, h2⟩ := Option.bind_eq_some.mp he
  rw [getExprAt_single] at h2
  obtain ⟨n, hn, hc⟩ := Option.bind_eq_some.mp h2
  exact ⟨ep, n, e, hep, hn, hc, hlen⟩

theorem insertNode_length (e : MathExpression) (b : Nat) (node : MathNode) :
    (insertNode e b node).length = e.length + 1 := by
  simp [insertNode]
  omega

theorem enterNode_ok {s : Cursor} {ni ci : Nat} (d : Direction)
    {e : MathExpression} {n : MathNode} {c : MathExpression}
    (he : getExprAt s.root s.path = some e) (hn : e[ni]? = some n)
    (hc : n.children[ci]? = some c) :
    s.enterNode ni ci d =
      { state :=
          { s with
            path := s.path ++ [⟨ni, ci⟩],
            cursorIndex := (match d with | .right => 0 | .left => c.length) },
        notifies := 1, err := none } ∧
    getExprAt s.root (s.path ++ [⟨ni, ci⟩]) = some c := by
  have hres : getExprAt s.root (s.path ++ [⟨ni, ci⟩]) = some c := by
    rw [getExprAt_append, he]
    simp [getExprAt_single, hn, hc]
  refine ⟨?_, hres⟩
  cases d with
  | right => rfl
  | left => simp [Cursor.enterNode, hres]

theorem leaveNode_ok {s : Cursor} {p : List CursorPathLink} {l : CursorPathLink}
    (hp : s.path = p ++ [l]) (d : Direction) :
    s.leaveNode d =
      { state :=
          { s with
            path := p,
            cursorIndex := (match d with | .left => l.nodeIndex | .right => l.nodeIndex + 1) },
        notifies := 1, err := none } := by
  simp [Cursor.leaveNode, hp, List.getLast?_concat, List.dropLast_concat]

theorem insertAtCursorCore_ok {s : Cursor} (node : MathNode) {e : MathExpression}
    (he : getExprAt s.root s.path = some e) :
    ∃ root', s.insertAtCursorCore node =
        { state := { s with root := root', cursorIndex := s.cursorIndex + 1 },
          notifies := 1, err := none } ∧
      getExprAt root' s.path = some (insertNode e s.cursorIndex node) := by
  obtain ⟨root', hset, hres⟩ := setExprAt_ok s.path s.root e (insertNode e s.cursorIndex node) he
  exact ⟨root', by simp [Cursor.insertAtCursorCore, he, hset], hres⟩

theorem deleteCharacterAtCursor_ok {s : Cursor} {e : MathExpression}
    (he : getExprAt s.root s.path = some e) (hpos : 0 < s.cursorIndex)
    (hlen : s.cursorIndex ≤ e.length) :
    ∃ root', s.deleteCharacterAtCursor =
        { state := { s with root := root', cursorIndex := s.cursorIndex - 1 },
          notifies := 1, err := none } ∧
      getExprAt root' s.path = some (e.eraseIdx (s.cursorIndex - 1)) := by
  have hcond : ¬((s.cursorIndex : Int) - 1 < 0 ∨ (e.length : Int) ≤ (s.cursorIndex : Int) - 1) := by
    omega
  have htn : ((s.cursorIndex : Int) - 1).toNat = s.cursorIndex - 1 := by omega
  have hrm : removeNthNode e ((s.cursorIndex : Int) - 1) =
      .ok (e.eraseIdx (s.cursorIndex - 1)) := by
    simp only [removeNthNode, if_neg hcond, htn]
  obtain ⟨root', hset, hres⟩ := setExprAt_ok s.path s.root e (e.eraseIdx (s.cursorIndex - 1)) he
  exact ⟨root', by simp [Cursor.deleteCharacterAtCursor, he, hrm, hset], hres⟩

theorem removeEnclosingNode_ok {s : Cursor} {p : List CursorPathLink} {l : CursorPathLink}
    {ep : MathExpression} {n : MathNode}
    (hp : s.path = p ++ [l]) (hep : getExprAt s.root p = some ep)
    (hn : ep[l.nodeIndex]? = some n) :
    ∃ root', s.removeEnclosingNode =
        { state := { s with root := root', path := p, cursorIndex := l.nodeIndex },
          notifies := 1, err := none } ∧
      getExprAt root' p = some (ep.eraseIdx l.nodeIndex) := by
  have hni : l.nodeIndex < ep.length := (List.getElem?_eq_some_iff.mp hn).1
  have hcond : ¬((l.nodeIndex : Int) < 0 ∨ (ep.length : Int) ≤ (l.nodeIndex : Int)) := by
    omega
  have hrm : removeNthNode ep (l.nodeIndex : Int) = .ok (ep.eraseIdx l.nodeIndex) := by
    simp only [removeNthNode, if_neg hcond, Int.toNat_natCast]
  obtain ⟨root', hset, hres⟩ := setExprAt_ok p s.root ep (ep.eraseIdx l.nodeIndex) hep
  refine ⟨root', ?_, hres⟩
  simp [Cursor.removeEnclosingNode, hp, List.getLast?_concat, List.dropLast_concat, hep,
    hrm, hset]

/-! ## Characterizations of the four directional moves -/

theorem moveRight_noop {s : Cursor} {e : MathExpression}
    (he : getExprAt s.root s.path = some e) (hend : s.cursorIndex = e.length)
    (hroot : s.path = []) :
    s.moveRight = { state := s, notifies := 1, err := none } := by
  have hes : e = s.root := by
    have h := hroot ▸ he
    simpa [getExprAt] using h.symm
  subst hes
  simp [Cursor.moveRight, hroot, getExprAt, hend, OpResult.thenNotify]

theorem moveRight_leave {s : Cursor} {e : MathExpression} {p : List CursorPathLink}
    {l : CursorPathLink}
    (he : getExprAt s.root s.path = some e) (hend : s.cursorIndex = e.length)
    (hp : s.path = p ++ [l]) :
    s.moveRight =
      { state := { s with path := p, cursorIndex := l.nodeIndex + 1 },
        notifies := 2, err := none } := by
  have h1 := leaveNode_ok hp Direction.right
  rw [hp] at he
  simp [Cursor.moveRight, he, hend, hp, h1, OpResult.thenNotify]

theorem moveRight_enter {s : Cursor} {e : MathExpression} {n : MathNode}
    (he : getExprAt s.root s.path = some e) (hn : e[s.cursorIndex]? = some n)
    (hch : n.children ≠ []) :
    s.moveRight =
      { state := { s with path := s.path ++ [⟨s.cursorIndex, 0⟩], cursorIndex := 0 },
        notifies := 2, err := none } := by
  obtain ⟨c, hc0⟩ : ∃ c, n.children[0]? = some c := by
    cases hcs : n.children with
    | nil => exact absurd hcs hch
    | cons a as => exact ⟨a, by simp⟩
  have hne : s.cursorIndex ≠ e.length := by
    have := (List.getElem?_eq_some_iff.mp hn).1
    omega
  have h2 := (enterNode_ok Direction.right he hn hc0).1
  have hchl : n.children.length ≠ 0 := by
    simpa [List.length_eq_zero] using hch
  simp [Cursor.moveRight, he, hne, hn, hchl, h2, OpResult.thenNotify]

theorem moveRight_step {s : Cursor} {e : MathExpression} {n : MathNode}
    (he : getExprAt s.root s.path = some e) (hn : e[s.cursorIndex]? = some n)
    (hch : n.children = []) :
    s.moveRight =
      { state := { s with cursorIndex := s.cursorIndex + 1 }, notifies := 1, err := none } := by
  have hne : s.cursorIndex ≠ e.length := by
    have := (List.getElem?_eq_some_iff.mp hn).1
    omega
  simp [Cursor.moveRight, he, hne, hn, hch, OpResult.thenNotify]

theorem moveLeft_noop {s : Cursor} {e : MathExpression}
    (he : getExprAt s.root s.path = some e) (h0 : s.cursorIndex = 0)
    (hroot : s.path = []) :
    s.moveLeft = { state := s, notifies := 1, err := none } := by
  have hes : e = s.root := by
    have h := hroot ▸ he
    simpa [getExprAt] using h.symm
  subst hes
  simp [Cursor.moveLeft, hroot, getExprAt, h0, OpResult.thenNotify]

theorem moveLeft_leave {s : Cursor} {e : MathExpression} {p : List CursorPathLink}
    {l : CursorPathLink}
    (he : getExprAt s.root s.path = some e) (h0 : s.cursorIndex = 0)
    (hp : s.path = p ++ [l]) :
    s.moveLeft =
      { state := { s with path := p, cursorIndex := l.nodeIndex },
        notifies := 2, err := none } := by
  have h1 := leaveNode_ok hp Direction.left
  rw [hp] at he
  simp [Cursor.moveLeft, he, h0, hp, h1, OpResult.thenNotify]

theorem moveLeft_enter {s : Cursor} {e : MathExpression} {n : MathNode} {c : MathExpression}
    (he : getExprAt s.root s.path = some e) (hpos : s.cursorIndex ≠ 0)
    (hn : e[s.cursorIndex - 1]? = some n) (hc0 : n.children[0]? = some c) :
    s.moveLeft =
      { state :=
          { s with
            path := s.path ++ [⟨s.cursorIndex - 1, 0⟩],
            cursorIndex := c.length },
        notifies := 2, err := none } := by
  have h2 := (enterNode_ok Direction.left he hn hc0).1
  have hchl : n.children.length ≠ 0 := by
    intro hz
    rw [List.length_eq_zero] at hz
    simp [hz] at hc0
  simp [Cursor.moveLeft, he, hpos, hn, hchl, h2, OpResult.thenNotify]

theorem moveLeft_step {s : Cursor} {e : MathExpression} {n : MathNode}
    (he : getExprAt s.root s.path = some e) (hpos : s.cursorIndex ≠ 0)
    (hn : e[s.cursorIndex - 1]? = some n) (hch : n.children = []) :
    s.moveLeft =
      { state := { s with cursorIndex := s.cursorIndex - 1 }, notifies := 1, err := none } := by
  simp [Cursor.moveLeft, he, hpos, hn, hch, OpResult.thenNotify]

theorem moveDown_root {s : Cursor} (hroot : s.path = []) :
    s.moveDown = { state := s, notifies := 0, err := none } := by
  simp [Cursor.moveDown, hroot]

theorem moveDown_noop {s : Cursor} {p : List CursorPathLink} {l : CursorPathLink}
    {ep : MathExpression} {n : MathNode}
    (hp : s.path = p ++ [l]) (hep : getExprAt s.root p = some ep)
    (hn : ep[l.nodeIndex]? = some n)
    (hb : ¬(l.childIndex < n.children.length - 1)) :
    s.moveDown = { state := s, notifies := 0, err := none } := by
  have hres : resolveEnclosingNode s.root (p ++ [l]) = some n := by
    rw [resolveEnclosingNode_concat]
    simp [hep, hn]
  simp [Cursor.moveDown, hp, List.getLast?_concat, hres, hb]

theorem moveDown_go {s : Cursor} {p : List CursorPathLink} {l : CursorPathLink}
    {ep : MathExpression} {n : MathNode} {sib : MathExpression}
    (hp : s.path = p ++ [l]) (hep : getExprAt s.root p = some ep)
    (hn : ep[l.nodeIndex]? = some n)
    (hlt : l.childIndex < n.children.length - 1)
    (hsib : n.children[l.childIndex + 1]? = some sib) :
    s.moveDown =
      { state :=
          { s with
            path := p ++ [⟨l.nodeIndex, l.childIndex + 1⟩],
            cursorIndex := sib.length },
        notifies := 2, err := none } := by
  have hres : resolveEnclosingNode s.root (p ++ [l]) = some n := by
    rw [resolveEnclosingNode_concat]
    simp [hep, hn]
  have h1 := leaveNode_ok hp Direction.left
  have h2 := (enterNode_ok (s := { s with path := p, cursorIndex := l.nodeIndex })
    Direction.left hep hn hsib).1
  simp [Cursor.moveDown, hp, List.getLast?_concat, hres, hlt, h1, OpResult.andThen, h2]

theorem moveUp_root {s : Cursor} (hroot : s.path = []) :
    s.moveUp = { state := s, notifies := 0, err := none } := by
  simp [Cursor.moveUp, hroot]

theorem moveUp_noop {s : Cursor} {p : List CursorPathLink} {l : CursorPathLink}
    {ep : MathExpression} {n : MathNode}
    (hp : s.path = p ++ [l]) (hep : getExprAt s.root p = some ep)
    (hn : ep[l.nodeIndex]? = some n) (hz : l.childIndex = 0) :
    s.moveUp = { state := s, notifies := 0, err := none } := by
  have hres : resolveEnclosingNode s.root (p ++ [l]) = some n := by
    rw [resolveEnclosingNode_concat]
    simp [hep, hn]
  simp [Cursor.moveUp, hp, List.getLast?_concat, hres, hz]

theorem moveUp_go {s : Cursor} {p : List CursorPathLink} {l : CursorPathLink}
    {ep : MathExpression} {n : MathNode} {sib : MathExpression}
    (hp : s.path = p ++ [l]) (hep : getExprAt s.root p = some ep)
    (hn : ep[l.nodeIndex]? = some n) (hpos : 0 < l.childIndex)
    (hsib : n.children[l.childIndex - 1]? = some sib) :
    s.moveUp =
      { state :=
          { s with
            path := p ++ [⟨l.nodeIndex, l.childIndex - 1⟩],
            cursorIndex := 0 },
        notifies := 2, err := none } := by
  have hres : resolveEnclosingNode s.root (p ++ [l]) = some n := by
    rw [resolveEnclosingNode_concat]
    simp [hep, hn]
  have h1 := leaveNode_ok hp Direction.left
  have h2 := (enterNode_ok (s := { s with path := p, cursorIndex := l.nodeIndex })
    Direction.right hep hn hsib).1
  simp [Cursor.moveUp, hp, List.getLast?_concat, hres, hpos, h1, OpResult.andThen, h2]

/-! ## Invariant preservation -/

theorem path_concat_of_ne_nil {pl : List CursorPathLink} (h : pl ≠ []) :
    ∃ p l, pl = p ++ [l] := by
  rcases List.eq_nil_or_concat pl with h0 | ⟨p, l, h0⟩
  · exact absurd h0 h
  · exact ⟨p, l, by simpa using h0⟩

theorem invariant_initial (root : MathExpression) : Invariant (Cursor.initial root) :=
  ⟨root, rfl, Nat.zero_le _⟩

theorem invariant_enterNode {s : Cursor} {ni ci : Nat} (hV : ValidEnter s ni ci)
    (d : Direction) : Invariant (s.enterNode ni ci d).state := by
  obtain ⟨e, n, he, hn, hc⟩ := hV
  obtain ⟨c, hc0⟩ : ∃ c, n.children[ci]? = some c :=
    ⟨n.children[ci], List.getElem?_eq_getElem hc⟩
  obtain ⟨heq, hres⟩ := enterNode_ok d he hn hc0
  rw [heq]
  cases d with
  | right => exact ⟨c, hres, Nat.zero_le _⟩
  | left => exact ⟨c, hres, Nat.le_refl _⟩

theorem invariant_leaveNode {s : Cursor} (hInv : Invariant s) (hne : s.path ≠ [])
    (d : Direction) : Invariant (s.leaveNode d).state := by
  obtain ⟨p, l, hp⟩ := path_concat_of_ne_nil hne
  obtain ⟨ep, n, c, hep, hn, hc, hlen⟩ := invariant_concat hInv hp
  have hni : l.nodeIndex < ep.length := (List.getElem?_eq_some_iff.mp hn).1
  cases d with
  | left =>
    rw [leaveNode_ok hp Direction.left]
    exact ⟨ep, hep, Nat.le_of_lt hni⟩
  | right =>
    rw [leaveNode_ok hp Direction.right]
    exact ⟨ep, hep, hni⟩

theorem invariant_insertAtCursorCore {s : Cursor} (hInv : Invariant s) (node : MathNode) :
    Invariant (s.insertAtCursorCore node).state := by
  obtain ⟨e, he, hlen⟩ := hInv
  obtain ⟨root', heq, hres⟩ := insertAtCursorCore_ok node he
  rw [heq]
  refine ⟨_, hres, ?_⟩
  show s.cursorIndex + 1 ≤ (insertNode e s.cursorIndex node).length
  rw [insertNode_length]
  omega

theorem invariant_deleteCharacterAtCursor {s : Cursor} (hInv : Invariant s)
    (hpos : 0 < s.cursorIndex) : Invariant (s.deleteCharacterAtCursor).state := by
  obtain ⟨e, he, hlen⟩ := hInv
  obtain ⟨root', heq, hres⟩ := deleteCharacterAtCursor_ok he hpos hlen
  rw [heq]
  refine ⟨_, hres, ?_⟩
  have h1 : (e.eraseIdx (s.cursorIndex - 1)).length = e.length - 1 := by
    simp [List.length_eraseIdx, show s.cursorIndex - 1 < e.length by omega]
  show s.cursorIndex - 1 ≤ (e.eraseIdx (s.cursorIndex - 1)).length
  rw [h1]
  omega

theorem invariant_removeEnclosingNode {s : Cursor} (hInv : Invariant s)
    (hne : s.path ≠ []) : Invariant (s.removeEnclosingNode).state := by
  obtain ⟨p, l, hp⟩ := path_concat_of_ne_nil hne
  obtain ⟨ep, n, c, hep, hn, hc, hlen⟩ := invariant_concat hInv hp
  obtain ⟨root', heq, hres⟩ := removeEnclosingNode_ok hp hep hn
  rw [heq]
  refine ⟨_, hres, ?_⟩
  have hni : l.nodeIndex < ep.length := (List.getElem?_eq_some_iff.mp hn).1
  have h1 : (ep.eraseIdx l.nodeIndex).length = ep.length - 1 := by
    simp [List.length_eraseIdx, hni]
  show l.nodeIndex ≤ (ep.eraseIdx l.nodeIndex).length
  rw [h1]
  omega

theorem invariant_moveRight {s : Cursor} (hInv : Invariant s) :
    Invariant (s.moveRight).state := by
  obtain ⟨e, he, hlen⟩ := hInv
  by_cases hend : s.cursorIndex = e.length
  · rcases List.eq_nil_or_concat s.path with hroot | ⟨p, l, hp0⟩
    · rw [moveRight_noop he hend hroot]
      exact ⟨e, he, hlen⟩
    · have hp : s.path = p ++ [l] := by simpa using hp0
      obtain ⟨ep, n, c, hep, hn, hc, _⟩ := invariant_concat ⟨e, he, hlen⟩ hp
      rw [moveRight_leave he hend hp]
      have hni : l.nodeIndex < ep.length := (List.getElem?_eq_some_iff.mp hn).1
      exact ⟨ep, hep, hni⟩
  · have hlt : s.cursorIndex < e.length := by omega
    obtain ⟨n, hn⟩ : ∃ n, e[s.cursorIndex]? = some n := ⟨_, List.getElem?_eq_getElem hlt⟩
    by_cases hch : n.children = []
    · rw [moveRight_step he hn hch]
      exact ⟨e, he, hlt⟩
    · rw [moveRight_enter he hn hch]
      obtain ⟨c, hc0⟩ : ∃ c, n.children[0]? = some c := by
        cases hcs : n.children with
        | nil => exact absurd hcs hch
        | cons a as => exact ⟨a, by simp⟩
      have hres := (enterNode_ok Direction.right he hn hc0).2
      exact ⟨c, hres, Nat.zero_le _⟩

theorem invariant_moveLeft {s : Cursor} (hInv : Invariant s) :
    Invariant (s.moveLeft).state := by
  obtain ⟨e, he, hlen⟩ := hInv
  by_cases h0 : s.cursorIndex = 0
  · rcases List.eq_nil_or_concat s.path with hroot | ⟨p, l, hp0⟩
    · rw [moveLeft_noop he h0 hroot]
      exact ⟨e, he, hlen⟩
    · have hp : s.path = p ++ [l] := by simpa using hp0
      obtain ⟨ep, n, c, hep, hn, hc, _⟩ := invariant_concat ⟨e, he, hlen⟩ hp
      rw [moveLeft_leave he h0 hp]
      have hni : l.nodeIndex < ep.length := (List.getElem?_eq_some_iff.mp hn).1
      exact ⟨ep, hep, Nat.le_of_lt hni⟩
  · have hlt : s.cursorIndex - 1 < e.length := by omega
    obtain ⟨n, hn⟩ : ∃ n, e[s.cursorIndex - 1]? = some n := ⟨_, List.getElem?_eq_getElem hlt⟩
    by_cases hch : n.children = []
    · rw [moveLeft_step he h0 hn hch]
      exact ⟨e, he, Nat.le_trans (Nat.sub_le _ _) hlen⟩
    · obtain ⟨c, hc0⟩ : ∃ c, n.children[0]? = some c := by
        cases hcs : n.children with
        | nil => exact absurd hcs hch
        | cons a as => exact ⟨a, by simp⟩
      rw [moveLeft_enter he h0 hn hc0]
      have hres := (enterNode_ok Direction.left he hn hc0).2
      exact ⟨c, hres, Nat.le_refl _⟩

theorem invariant_moveDown {s : Cursor} (hInv : Invariant s) :
    Invariant (s.moveDown).state := by
  rcases List.eq_nil_or_concat s.path with hroot | ⟨p, l, hp0⟩
  · rw [moveDown_root hroot]
    exact hInv
  · have hp : s.path = p ++ [l] := by simpa using hp0
    obtain ⟨ep, n, c, hep, hn, hc, hlen⟩ := invariant_concat hInv hp
    by_cases hlt : l.childIndex < n.children.length - 1
    · obtain ⟨sib, hsib⟩ : ∃ sib, n.children[l.childIndex + 1]? = some sib :=
        ⟨_, List.getElem?_eq_getElem (by omega)⟩
      rw [moveDown_go hp hep hn hlt hsib]
      have hres : getExprAt s.root (p ++ [⟨l.nodeIndex, l.childIndex + 1⟩]) = some sib := by
        rw [getExprAt_append, hep]
        simp [getExprAt_single, hn, hsib]
      exact ⟨sib, hres, Nat.le_refl _⟩
    · rw [moveDown_noop hp hep hn hlt]
      exact hInv

theorem invariant_moveUp {s : Cursor} (hInv : Invariant s) :
    Invariant (s.moveUp).state := by
  rcases List.eq_nil_or_concat s.path with hroot | ⟨p, l, hp0⟩
  · rw [moveUp_root hroot]
    exact hInv
  · have hp : s.path = p ++ [l] := by simpa using hp0
    obtain ⟨ep, n, c, hep, hn, hc, hlen⟩ := invariant_concat hInv hp
    by_cases hpos : 0 < l.childIndex
    · have hci : l.childIndex < n.children.length := (List.getElem?_eq_some_iff.mp hc).1
      obtain ⟨sib, hsib⟩ : ∃ sib, n.children[l.childIndex - 1]? = some sib :=
        ⟨_, List.getElem?_eq_getElem (by omega)⟩
      rw [moveUp_go hp hep hn hpos hsib]
      have hres : getExprAt s.root (p ++ [⟨l.nodeIndex, l.childIndex - 1⟩]) = some sib := by
        rw [getExprAt_append, hep]
        simp [getExprAt_single, hn, hsib]
      exact ⟨sib, hres, Nat.zero_le _⟩
    · rw [moveUp_noop hp hep hn (by omega)]
      exact hInv

/-! ## Reachability -/

/-- The states reachable from the initial state (root expression, empty path, index 0)
by any sequence of the public operations under their stated preconditions. -/
inductive Reachable (root : MathExpression) : Cursor → Prop where
  | init : Reachable root (Cursor.initial root)
  | enterNode {s : Cursor} (ni ci : Nat) (d : Direction) (hs : Reachable root s)
      (hV : ValidEnter s ni ci) : Reachable root (s.enterNode ni ci d).state
  | leaveNode {s : Cursor} (d : Direction) (hs : Reachable root s) (hne : s.path ≠ []) :
      Reachable root (s.leaveNode d).state
  | removeEnclosingNode {s : Cursor} (hs : Reachable root s) (hne : s.path ≠ []) :
      Reachable root (s.removeEnclosingNode).state
  | deleteCharacterAtCursor {s : Cursor} (hs : Reachable root s)
      (hpos : 0 < s.cursorIndex) : Reachable root (s.deleteCharacterAtCursor).state
  | moveRight {s : Cursor} (hs : Reachable root s) : Reachable root (s.moveRight).state
  | moveLeft {s : Cursor} (hs : Reachable root s) : Reachable root (s.moveLeft).state
  | moveUp {s : Cursor} (hs : Reachable root s) : Reachable root (s.moveUp).state
  | moveDown {s : Cursor} (hs : Reachable root s) : Reachable root (s.moveDown).state
  | insertCharacterAtCursor {s : Cursor} (character freshId : String)
      (hs : Reachable root s) :
      Reachable root (s.insertCharacterAtCursor character freshId).state
  | insertNodeAtCursor {s : Cursor} (node : MathNode) (hs : Reachable root s) :
      Reachable root (s.insertNodeAtCursor node).state

/-- Claim C1: for every cursor state reachable from the initial state by any sequence of the
public operations with their stated preconditions (`enterNode` with valid node/child
indices, `leaveNode` and `removeEnclosingNode` not at root, `deleteCharacterAtCursor`
with positive position, the four moves and the two insertions unconditionally), the
invariant holds: `0 ≤ position ≤ length(enclosingExpression)` and every link of the
path indexes a valid node of the expression reached by the shorter prefix and a valid
child expression of that node. -/
theorem reachable_invariant {root : MathExpression} {s : Cursor}
    (h : Reachable root s) : Invariant s := by
  induction h with
  | init => exact invariant_initial root
  | enterNode ni ci d hs hV ih => exact invariant_enterNode hV d
  | leaveNode d hs hne ih => exact invariant_leaveNode ih hne d
  | removeEnclosingNode hs hne ih => exact invariant_removeEnclosingNode ih hne
  | deleteCharacterAtCursor hs hpos ih => exact invariant_deleteCharacterAtCursor ih hpos
  | moveRight hs ih => exact invariant_moveRight ih
  | moveLeft hs ih => exact invariant_moveLeft ih
  | moveUp hs ih => exact invariant_moveUp ih
  | moveDown hs ih => exact invariant_moveDown ih
  | insertCharacterAtCursor character freshId hs ih =>
      exact invariant_insertAtCursorCore ih (MathCharacter freshId character)
  | insertNodeAtCursor node hs ih => exact invariant_insertAtCursorCore ih node

/-- Witness for C1 at a concrete reachable state: insert a fraction at the root, then
step into its numerator with `moveRight`. -/
theorem reachable_invariant_witness :
    Invariant (((Cursor.initial []).insertNodeAtCursor (Fraction "f")).state.moveRight).state :=
  reachable_invariant
    (Reachable.moveRight (Reachable.insertNodeAtCursor (Fraction "f") Reachable.init))

/-! ## Claim C8: totality of `insertNode` -/

/-- Claim C8: `MathExpression.insertNode(before, node)` never fails for any non-negative
index: the length always grows by exactly one; an index at or past the current length
appends the node at the end; nodes before the insertion point keep their index, and
every previously later node shifts right by one. -/
theorem insertNode_total_spec (e : MathExpression) (before : Nat) (node : MathNode) :
    (insertNode e before node).length = e.length + 1 ∧
    (e.length ≤ before → insertNode e before node = e ++ [node]) ∧
    (∀ j, j < before → j < e.length → (insertNode e before node)[j]? = e[j]?) ∧
    (∀ j, before ≤ j → (insertNode e before node)[j + 1]? = e[j]?) := by
  refine ⟨insertNode_length e before node, ?_, ?_, ?_⟩
  · intro h
    simp [insertNode, List.take_of_length_le h, List.drop_of_length_le h]
  · intro j hjb hjl
    unfold insertNode
    rw [List.getElem?_append_left (by simp [List.length_take]; omega)]
    rw [List.getElem?_take]
    simp [hjb]
  · intro j hbj
    unfold insertNode
    rcases le_or_lt before e.length with hb | hb
    · rw [List.getElem?_append_right (by simp [List.length_take]; omega)]
      have h1 : j + 1 - (e.take before).length = (j - before) + 1 := by
        simp [List.length_take]
        omega
      rw [h1]
      simp [List.getElem?_drop]
      congr 1
      omega
    · rw [List.take_of_length_le (by omega), List.drop_of_length_le (by omega)]
      rw [List.getElem?_append_right (by omega)]
      rw [List.getElem?_eq_none (by simp; omega)]
      rw [List.getElem?_eq_none (by omega)]

/-- Witness for C8: inserting at index 5 of an empty expression appends. -/
theorem insertNode_total_spec_witness :
    insertNode [] 5 (MathCharacter "w" "x") = [] ++ [MathCharacter "w" "x"] :=
  (insertNode_total_spec [] 5 (MathCharacter "w" "x")).2.1 (by decide)

/-! ## Claim C6: `deleteCharacterAtCursor` -/

/-- Claim C6: under the cursor invariant, `deleteCharacterAtCursor()` at `position = 0` throws
the out-of-bounds error and leaves the tree, the path and the position exactly as they
were (no partial application); at `position > 0` it removes the node at
`position - 1` of the enclosing expression and decrements the position. -/
theorem deleteCharacterAtCursor_spec {s : Cursor} {e : MathExpression}
    (he : getExprAt s.root s.path = some e) (hlen : s.cursorIndex ≤ e.length) :
    (s.cursorIndex = 0 →
      (s.deleteCharacterAtCursor).err = some "Attempted to remove node out of bounds" ∧
      (s.deleteCharacterAtCursor).state = s) ∧
    (0 < s.cursorIndex →
      (s.deleteCharacterAtCursor).err = none ∧
      (s.deleteCharacterAtCursor).state.path = s.path ∧
      (s.deleteCharacterAtCursor).state.cursorIndex = s.cursorIndex - 1 ∧
      getExprAt (s.deleteCharacterAtCursor).state.root s.path =
        some (e.eraseIdx (s.cursorIndex - 1))) := by
  constructor
  · intro h0
    constructor <;> simp [Cursor.deleteCharacterAtCursor, he, removeNthNode, h0]
  · intro hpos
    obtain ⟨root', heq, hres⟩ := deleteCharacterAtCursor_ok he hpos hlen
    rw [heq]
    exact ⟨rfl, rfl, rfl, hres⟩

/-- Witness for C6: deleting at position 1 of a one-character root expression empties
it. -/
theorem deleteCharacterAtCursor_spec_witness :
    (Cursor.deleteCharacterAtCursor
      { root := [MathCharacter "a" "x"], path := [], cursorIndex := 1,
        focused := false, blinkState := true }).err = none ∧
    getExprAt (Cursor.deleteCharacterAtCursor
      { root := [MathCharacter "a" "x"], path := [], cursorIndex := 1,
        focused := false, blinkState := true }).state.root [] = some [] := by
  have h := (deleteCharacterAtCursor_spec
    (s := { root := [MathCharacter "a" "x"], path := [], cursorIndex := 1,
            focused := false, blinkState := true })
    (e := [MathCharacter "a" "x"]) rfl (by decide)).2 (by decide)
  exact ⟨h.1, h.2.2.2⟩

/-! ## Claim C7: `removeEnclosingNode` -/

/-- Claim C7: under the cursor invariant, `removeEnclosingNode()` fails with the
no-enclosing-node error exactly when the path is empty, leaving all state unchanged;
with a non-empty path it pops the last link, removes the node at that link's
`nodeIndex` from the expression that becomes the enclosing one, and sets the position
to the removed node's former index. -/
theorem removeEnclosingNode_spec {s : Cursor} (hInv : Invariant s) :
    ((s.removeEnclosingNode).err ≠ none ↔ s.path = []) ∧
    (s.path = [] →
      (s.removeEnclosingNode).err = some "No enclosing node to remove" ∧
      (s.removeEnclosingNode).state = s) ∧
    (∀ p l, s.path = p ++ [l] →
      (s.removeEnclosingNode).err = none ∧
      (s.removeEnclosingNode).state.path = p ∧
      (s.removeEnclosingNode).state.cursorIndex = l.nodeIndex ∧
      ∃ ep, getExprAt s.root p = some ep ∧
        getExprAt (s.removeEnclosingNode).state.root p =
          some (ep.eraseIdx l.nodeIndex)) := by
  have hcase : ∀ p l, s.path = p ++ [l] →
      (s.removeEnclosingNode).err = none ∧
      (s.removeEnclosingNode).state.path = p ∧
      (s.removeEnclosingNode).state.cursorIndex = l.nodeIndex ∧
      ∃ ep, getExprAt s.root p = some ep ∧
        getExprAt (s.removeEnclosingNode).state.root p =
          some (ep.eraseIdx l.nodeIndex) := by
    intro p l hp
    obtain ⟨ep, n, c, hep, hn, hc, hlen⟩ := invariant_concat hInv hp
    obtain ⟨root', heq, hres⟩ := removeEnclosingNode_ok hp hep hn
    rw [heq]
    exact ⟨rfl, rfl, rfl, ep, hep, hres⟩
  refine ⟨?_, ?_, hcase⟩
  · constructor
    · intro herr
      by_contra hne
      obtain ⟨p, l, hp⟩ := path_concat_of_ne_nil hne
      exact herr (hcase p l hp).1
    · intro hroot
      simp [Cursor.removeEnclosingNode, hroot]
  · intro hroot
    constructor <;> simp [Cursor.removeEnclosingNode, hroot]

/-- Witness for C7: removing the enclosing fraction from inside its numerator. -/
theorem removeEnclosingNode_spec_witness :
    (Cursor.removeEnclosingNode
      { root := [Fraction "f"], path := [⟨0, 0⟩], cursorIndex := 0,
        focused := false, blinkState := true }).err = none ∧
    (Cursor.removeEnclosingNode
      { root := [Fraction "f"], path := [⟨0, 0⟩], cursorIndex := 0,
        focused := false, blinkState := true }).state.path = [] := by
  have h := (removeEnclosingNode_spec
    (s := { root := [Fraction "f"], path := [⟨0, 0⟩], cursorIndex := 0,
            focused := false, blinkState := true })
    ⟨[], rfl, by decide⟩).2.2 [] ⟨0, 0⟩ rfl
  exact ⟨h.1, h.2.1⟩

/-! ## Claim C10: `handleKeydown` with Backspace at the root start -/

/-- Claim C10: `handleKeydown` with key Backspace dispatches on `position = 0` versus
`position > 0` only, never on whether an enclosing node exists; invoked at the root
expression with position 0 it therefore throws the no-enclosing-node error, and the
failed call leaves the tree, the path and the position unchanged. -/
theorem handleKeydown_backspace_root_spec (s : Cursor) (freshId : String)
    (h0 : s.cursorIndex = 0) (hroot : s.path = []) :
    (s.handleKeydown "Backspace" freshId).err = some "No enclosing node to remove" ∧
    (s.handleKeydown "Backspace" freshId).state.root = s.root ∧
    (s.handleKeydown "Backspace" freshId).state.path = [] ∧
    (s.handleKeydown "Backspace" freshId).state.cursorIndex = 0 := by
  have hA : strIncludes ALPHANUM "Backspace" = false := by decide
  have hP : strIncludes "!@#&-=+\x27:<>,.?|" "Backspace" = false := by decide
  refine ⟨?_, ?_, ?_, ?_⟩ <;>
    simp [Cursor.handleKeydown, hA, hP, h0, hroot, Cursor.removeEnclosingNode]

/-- Witness for C10 at the freshly constructed editor over the expression `x`. -/
theorem handleKeydown_backspace_root_spec_witness :
    ((Cursor.initial [MathCharacter "a" "x"]).handleKeydown "Backspace" "z").err =
      some "No enclosing node to remove" :=
  (handleKeydown_backspace_root_spec (Cursor.initial [MathCharacter "a" "x"]) "z"
    rfl rfl).1

/-! ## Claim C3: `moveDown` / `moveUp` -/

/-- Claim C3: under the cursor invariant, when the cursor is not at root with top-level link
`⟨ni, c⟩`: if `c` is not the enclosing node's last child index, `moveDown()` re-addresses
the same node at child index `c + 1` with the position at the end (the length) of that
sibling expression; if `c > 0`, `moveUp()` re-addresses child index `c - 1` with the
position at its start (`0`); in every other case (at root or at the respective
boundary) both calls leave the state unchanged. -/
theorem moveDown_moveUp_spec {s : Cursor} (hInv : Invariant s) :
    (s.path = [] →
      s.moveDown = { state := s, notifies := 0, err := none } ∧
      s.moveUp = { state := s, notifies := 0, err := none }) ∧
    (∀ p ni c, s.path = p ++ [⟨ni, c⟩] →
      ∃ ep n, getExprAt s.root p = some ep ∧ ep[ni]? = some n ∧
        ((c + 1 < n.children.length →
          ∃ sib, n.children[c + 1]? = some sib ∧
            s.moveDown =
              { state :=
                  { s with
                    path := p ++ [⟨ni, c + 1⟩],
                    cursorIndex := sib.length },
                notifies := 2, err := none }) ∧
        (c + 1 = n.children.length →
          s.moveDown = { state := s, notifies := 0, err := none }) ∧
        (0 < c →
          ∃ sib, n.children[c - 1]? = some sib ∧
            s.moveUp =
              { state :=
                  { s with
                    path := p ++ [⟨ni, c - 1⟩],
                    cursorIndex := 0 },
                notifies := 2, err := none }) ∧
        (c = 0 → s.moveUp = { state := s, notifies := 0, err := none }))) := by
  constructor
  · intro hroot
    exact ⟨moveDown_root hroot, moveUp_root hroot⟩
  · intro p ni c hp
    obtain ⟨ep, n, ce, hep, hn, hc, hlen⟩ := invariant_concat hInv hp
    refine ⟨ep, n, hep, hn, ?_, ?_, ?_, ?_⟩
    · intro hlt
      obtain ⟨sib, hsib⟩ : ∃ sib, n.children[c + 1]? = some sib :=
        ⟨_, List.getElem?_eq_getElem hlt⟩
      exact ⟨sib, hsib, moveDown_go hp hep hn
        (show c < n.children.length - 1 by omega) hsib⟩
    · intro hlast
      exact moveDown_noop hp hep hn
        (show ¬(c < n.children.length - 1) by omega)
    · intro hpos
      have hcl : c < n.children.length := (List.getElem?_eq_some_iff.mp hc).1
      obtain ⟨sib, hsib⟩ : ∃ sib, n.children[c - 1]? = some sib :=
        ⟨_, List.getElem?_eq_getElem (by omega)⟩
      exact ⟨sib, hsib, moveUp_go hp hep hn hpos hsib⟩
    · intro hz
      exact moveUp_noop hp hep hn hz

/-- Witness for C3: inside the numerator of a fraction, `moveDown` lands at the end of
the denominator. -/
theorem moveDown_moveUp_spec_witness :
    ∃ ep n, getExprAt [Fraction "f"] [] = some ep ∧ ep[(0 : Nat)]? = some n ∧
      ((0 + 1 < n.children.length →
        ∃ sib, n.children[0 + 1]? = some sib ∧
          Cursor.moveDown
            { root := [Fraction "f"], path := [] ++ [⟨0, 0⟩], cursorIndex := 0,
              focused := false, blinkState := true } =
            { state :=
                { root := [Fraction "f"], path := [] ++ [⟨0, 0 + 1⟩],
                  cursorIndex := sib.length, focused := false, blinkState := true },
              notifies := 2, err := none }) ∧
      (0 + 1 = n.children.length →
        Cursor.moveDown
          { root := [Fraction "f"], path := [] ++ [⟨0, 0⟩], cursorIndex := 0,
            focused := false, blinkState := true } =
          { state :=
              { root := [Fraction "f"], path := [] ++ [⟨0, 0⟩], cursorIndex := 0,
                focused := false, blinkState := true },
            notifies := 0, err := none }) ∧
      (0 < 0 →
        ∃ sib, n.children[0 - 1]? = some sib ∧
          Cursor.moveUp
            { root := [Fraction "f"], path := [] ++ [⟨0, 0⟩], cursorIndex := 0,
              focused := false, blinkState := true } =
            { state :=
                { root := [Fraction "f"], path := [] ++ [⟨0, 0 - 1⟩],
                  cursorIndex := 0, focused := false, blinkState := true },
              notifies := 2, err := none }) ∧
      (0 = 0 →
        Cursor.moveUp
          { root := [Fraction "f"], path := [] ++ [⟨0, 0⟩], cursorIndex := 0,
            focused := false, blinkState := true } =
          { state :=
              { root := [Fraction "f"], path := [] ++ [⟨0, 0⟩], cursorIndex := 0,
                focused := false, blinkState := true },
            notifies := 0, err := none })) :=
  (moveDown_moveUp_spec
    (s := { root := [Fraction "f"], path := [] ++ [⟨0, 0⟩], cursorIndex := 0,
            focused := false, blinkState := true })
    ⟨[], rfl, by decide⟩).2 [] 0 0 rfl

/-! ## Claim C9: empty expression, unfocused cursor -/

/-- Claim C9: an unfocused cursor renders as the empty string, so an enclosing expression with
no nodes renders as the reserved placeholder `~` even though the cursor's marker is
spliced into it. -/
theorem unfocused_empty_placeholder_spec (s : Cursor) (hfoc : s.focused = false)
    (pos : Nat) :
    s.renderAsLatex = "" ∧
    renderExpr [] (some ([], pos)) s.renderAsLatex = "~" := by
  have hm : s.renderAsLatex = "" := by
    simp [Cursor.renderAsLatex, cursorMarker, hfoc]
  refine ⟨hm, ?_⟩
  rw [hm]
  simp [renderExpr, renderParts]
  decide

/-- Witness for C9 at the freshly constructed (unfocused) editor over an empty root. -/
theorem unfocused_empty_placeholder_spec_witness :
    (Cursor.initial []).renderAsLatex = "" ∧
    renderExpr [] (some ([], 0)) (Cursor.initial []).renderAsLatex = "~" :=
  unfocused_empty_placeholder_spec (Cursor.initial []) rfl 0

/-! ## Claim C4: expression rendering -/

theorem renderParts_length (nodes : List MathNode) (i : Nat) (cur : RelCursor)
    (marker : String) : (renderParts nodes i cur marker).length = nodes.length := by
  induction nodes generalizing i with
  | nil => simp [renderParts]
  | cons n rest ih => simp [renderParts, ih (i + 1)]

theorem renderParts_getElem (nodes : List MathNode) (i j : Nat) (cur : RelCursor)
    (marker : String) :
    (renderParts nodes i cur marker)[j]? =
      (nodes[j]?).map (fun n => renderNode n (curForNode cur (i + j)) marker) := by
  induction nodes generalizing i j with
  | nil => simp [renderParts]
  | cons n rest ih =>
    cases j with
    | zero => simp [renderParts]
    | succ k =>
      have harith : i + 1 + k = i + (k + 1) := by omega
      simp [renderParts, ih (i + 1) k, harith]

/-- Claim C4: `renderAsLaTeX` renders each node of the expression in order, joins the
fragments with the space separator, and splices the cursor's rendered marker into the
fragment sequence at index `position` iff this expression is the one the cursor's path
addresses (insertion, not overwriting: the spliced sequence is one longer); an
expression with no nodes and no cursor present renders as the placeholder `~`. -/
theorem renderAsLaTeX_spec (nodes : MathExpression) (marker : String) :
    (∀ cur : RelCursor,
      (renderParts nodes 0 cur marker).length = nodes.length ∧
      ∀ j : Nat, (renderParts nodes 0 cur marker)[j]? =
        (nodes[j]?).map (fun n => renderNode n (curForNode cur j) marker)) ∧
    (∀ pos : Nat,
      renderExpr nodes (some ([], pos)) marker =
        (if String.intercalate " "
            ((renderParts nodes 0 (some ([], pos)) marker).take pos ++
              marker :: (renderParts nodes 0 (some ([], pos)) marker).drop pos) = ""
         then "~"
         else String.intercalate " "
            ((renderParts nodes 0 (some ([], pos)) marker).take pos ++
              marker :: (renderParts nodes 0 (some ([], pos)) marker).drop pos)) ∧
      ((renderParts nodes 0 (some ([], pos)) marker).take pos ++
        marker :: (renderParts nodes 0 (some ([], pos)) marker).drop pos).length =
        nodes.length + 1) ∧
    (∀ cur : RelCursor, (∀ pos, cur ≠ some ([], pos)) →
      renderExpr nodes cur marker =
        (if String.intercalate " " (renderParts nodes 0 cur marker) = "" then "~"
         else String.intercalate " " (renderParts nodes 0 cur marker))) ∧
    (nodes = [] → renderExpr nodes none marker = "~") := by
  refine ⟨?_, ?_, ?_, ?_⟩
  · intro cur
    exact ⟨renderParts_length nodes 0 cur marker,
      fun j => by simpa using renderParts_getElem nodes 0 j cur marker⟩
  · intro pos
    constructor
    · simp [renderExpr]
    · have h1 : ((renderParts nodes 0 (some ([], pos)) marker).take pos ++
          marker :: (renderParts nodes 0 (some ([], pos)) marker).drop pos).length =
          (renderParts nodes 0 (some ([], pos)) marker).length + 1 := by
        simp [List.length_take]
        omega
      rw [h1, renderParts_length]
  · intro cur hcur
    match cur with
    | none => simp [renderExpr]
    | some (l :: restPath, pos) => simp [renderExpr]
    | some ([], pos) => exact absurd rfl (hcur pos)
  · intro hnil
    subst hnil
    simp [renderExpr, renderParts]
    decide

/-- Witness for C4: an empty expression without the cursor renders as the placeholder. -/
theorem renderAsLaTeX_spec_witness : renderExpr [] none "M" = "~" :=
  (renderAsLaTeX_spec [] "M").2.2.2 rfl

/-! ## Claim C2: `moveRight` then `moveLeft` -/

/-- Claim C2 counterexample: starting inside the denominator (child index 1) of a fraction at
the end of that (empty) expression, `moveRight` leaves the fraction and `moveLeft`
re-enters its *first* child, the numerator: both calls change the state (neither is a
no-op) and neither throws, yet the final path `[⟨0, 0⟩]` differs from the original
`[⟨0, 1⟩]`. -/
theorem moveRight_moveLeft_roundtrip_cex :
    ((Cursor.moveRight
        { root := [Fraction "f"], path := [⟨0, 1⟩], cursorIndex := 0,
          focused := false, blinkState := true }).err = none) ∧
    ¬((Cursor.moveRight
        { root := [Fraction "f"], path := [⟨0, 1⟩], cursorIndex := 0,
          focused := false, blinkState := true }).state.path = [⟨0, 1⟩] ∧
      (Cursor.moveRight
        { root := [Fraction "f"], path := [⟨0, 1⟩], cursorIndex := 0,
          focused := false, blinkState := true }).state.cursorIndex = 0) ∧
    ((Cursor.moveLeft (Cursor.moveRight
        { root := [Fraction "f"], path := [⟨0, 1⟩], cursorIndex := 0,
          focused := false, blinkState := true }).state).err = none) ∧
    ¬((Cursor.moveLeft (Cursor.moveRight
        { root := [Fraction "f"], path := [⟨0, 1⟩], cursorIndex := 0,
          focused := false, blinkState := true }).state).state.path =
        (Cursor.moveRight
        { root := [Fraction "f"], path := [⟨0, 1⟩], cursorIndex := 0,
          focused := false, blinkState := true }).state.path ∧
      (Cursor.moveLeft (Cursor.moveRight
        { root := [Fraction "f"], path := [⟨0, 1⟩], cursorIndex := 0,
          focused := false, blinkState := true }).state).state.cursorIndex =
        (Cursor.moveRight
        { root := [Fraction "f"], path := [⟨0, 1⟩], cursorIndex := 0,
          focused := false, blinkState := true }).state.cursorIndex) ∧
    ¬((Cursor.moveLeft (Cursor.moveRight
        { root := [Fraction "f"], path := [⟨0, 1⟩], cursorIndex := 0,
          focused := false, blinkState := true }).state).state.path = [⟨0, 1⟩] ∧
      (Cursor.moveLeft (Cursor.moveRight
        { root := [Fraction "f"], path := [⟨0, 1⟩], cursorIndex := 0,
          focused := false, blinkState := true }).state).state.cursorIndex = 0) := by
  decide

/-- Claim C2 amended: `moveRight` followed by `moveLeft` (neither a no-op) restores the
original path and position, provided additionally that whenever the starting position
is at the end of the enclosing expression with a non-empty path (the case where
`moveRight` leaves the enclosing node), the top-level link's child index is `0` —
because `moveLeft` always re-enters child expression 0, leaving from a child with
index `c > 0` comes back into a different sibling. -/
theorem moveRight_moveLeft_roundtrip_amended {s : Cursor} (hInv : Invariant s)
    (hR : ¬((s.moveRight).state.path = s.path ∧
            (s.moveRight).state.cursorIndex = s.cursorIndex))
    (_hL : ¬(((s.moveRight).state.moveLeft).state.path = (s.moveRight).state.path ∧
            ((s.moveRight).state.moveLeft).state.cursorIndex =
              (s.moveRight).state.cursorIndex))
    (hC : ∀ p l, s.path = p ++ [l] →
      (∃ e, getExprAt s.root s.path = some e ∧ s.cursorIndex = e.length) →
      l.childIndex = 0) :
    ((s.moveRight).state.moveLeft).state.path = s.path ∧
    ((s.moveRight).state.moveLeft).state.cursorIndex = s.cursorIndex := by
  obtain ⟨e, he, hlen⟩ := hInv
  by_cases hend : s.cursorIndex = e.length
  · rcases List.eq_nil_or_concat s.path with hroot | ⟨p, l, hp0⟩
    · exfalso
      apply hR
      rw [moveRight_noop he hend hroot]
      exact ⟨rfl, rfl⟩
    · obtain ⟨ni, ci⟩ := l
      have hp : s.path = p ++ [⟨ni, ci⟩] := by simpa using hp0
      have hl0 : ci = 0 := hC p ⟨ni, ci⟩ hp ⟨e, he, hend⟩
      subst hl0
      have he' := he
      rw [hp, getExprAt_append] at he'
      obtain ⟨ep, hep, h2⟩ := Option.bind_eq_some.mp he'
      rw [getExprAt_single] at h2
      obtain ⟨n, hn, hce⟩ := Option.bind_eq_some.mp h2
      rw [moveRight_leave he hend hp]
      have hml := moveLeft_enter
        (s := { s with path := p, cursorIndex := CursorPathLink.nodeIndex ⟨ni, 0⟩ + 1 })
        (e := ep) (n := n) (c := e) hep (by simp) hn hce
      rw [hml]
      rw [hp]
      exact ⟨rfl, hend.symm⟩
  · have hlt : s.cursorIndex < e.length := by omega
    obtain ⟨n, hn⟩ : ∃ n, e[s.cursorIndex]? = some n := ⟨_, List.getElem?_eq_getElem hlt⟩
    by_cases hch : n.children = []
    · rw [moveRight_step he hn hch]
      have hml := moveLeft_step (s := { s with cursorIndex := s.cursorIndex + 1 })
        (e := e) (n := n) he (by simp) hn hch
      rw [hml]
      exact ⟨rfl, rfl⟩
    · obtain ⟨c0, hc0⟩ : ∃ c0, n.children[0]? = some c0 := by
        cases hcs : n.children with
        | nil => exact absurd hcs hch
        | cons a as => exact ⟨a, by simp⟩
      have hres := (enterNode_ok Direction.right he hn hc0).2
      rw [moveRight_enter he hn hch]
      have hml := moveLeft_leave
        (s := { s with path := s.path ++ [⟨s.cursorIndex, 0⟩], cursorIndex := 0 })
        (e := c0) (p := s.path) (l := ⟨s.cursorIndex, 0⟩) hres rfl rfl
      rw [hml]
      exact ⟨rfl, rfl⟩

/-- Witness for the amended C2: in the root expression `[x]` at position 0, `moveRight`
steps over the character and `moveLeft` steps back. -/
theorem moveRight_moveLeft_roundtrip_amended_witness :
    ((Cursor.moveRight
        { root := [MathCharacter "a" "x"], path := [], cursorIndex := 0,
          focused := false, blinkState := true }).state.moveLeft).state.path = [] ∧
    ((Cursor.moveRight
        { root := [MathCharacter "a" "x"], path := [], cursorIndex := 0,
          focused := false, blinkState := true }).state.moveLeft).state.cursorIndex = 0 :=
  moveRight_moveLeft_roundtrip_amended
    (s := { root := [MathCharacter "a" "x"], path := [], cursorIndex := 0,
            focused := false, blinkState := true })
    ⟨[MathCharacter "a" "x"], rfl, by decide⟩
    (by decide) (by decide)
    (fun p l hpl => by simp at hpl)

/-! ## Claim C5: observer notification -/

/-- Claim C5 counterexample: `moveDown()` at the root is a no-op that runs no
`notifyUpdates()` at all, so no registered observer is invoked even once. -/
theorem notify_claim_cex :
    ¬(1 ≤ (Cursor.moveDown
      { root := [], path := [], cursorIndex := 0,
        focused := false, blinkState := true }).notifies) := by
  decide

theorem thenNotify_notifies_pos (r : OpResult) (h : r.thenNotify.err = none) :
    1 ≤ r.thenNotify.notifies := by
  cases he : r.err with
  | none => simp [OpResult.thenNotify, he]
  | some msg =>
    rw [OpResult.thenNotify_err] at h
    exact absurd h (by simp [he])

/-- Claim C5 amended: every mutating or navigating operation that returns without throwing
concludes with at least one `notifyUpdates()` (hence invokes every registered
`onUpdate` observer at least once), including the no-op cases of `moveRight` and
`moveLeft` — except `moveDown` and `moveUp`: they notify (via their leave/enter steps)
exactly when they switch child expressions (`c < children.length - 1` for down,
`c > 0` for up), and in their no-op cases — at root, or with the top link's child
index at the respective boundary — they return the state unchanged without invoking
any observer callback. -/
theorem notify_spec_amended :
    (∀ (s : Cursor) (ni ci : Nat) (d : Direction),
      (s.enterNode ni ci d).err = none → 1 ≤ (s.enterNode ni ci d).notifies) ∧
    (∀ (s : Cursor) (d : Direction),
      (s.leaveNode d).err = none → 1 ≤ (s.leaveNode d).notifies) ∧
    (∀ s : Cursor, (s.moveRight).err = none → 1 ≤ (s.moveRight).notifies) ∧
    (∀ s : Cursor, (s.moveLeft).err = none → 1 ≤ (s.moveLeft).notifies) ∧
    (∀ (s : Cursor) (character freshId : String),
      (s.insertCharacterAtCursor character freshId).err = none →
      1 ≤ (s.insertCharacterAtCursor character freshId).notifies) ∧
    (∀ (s : Cursor) (node : MathNode),
      (s.insertNodeAtCursor node).err = none → 1 ≤ (s.insertNodeAtCursor node).notifies) ∧
    (∀ s : Cursor,
      (s.deleteCharacterAtCursor).err = none → 1 ≤ (s.deleteCharacterAtCursor).notifies) ∧
    (∀ s : Cursor,
      (s.removeEnclosingNode).err = none → 1 ≤ (s.removeEnclosingNode).notifies) ∧
    (∀ s : Cursor, s.path = [] →
      (s.moveDown).state = s ∧ (s.moveDown).notifies = 0) ∧
    (∀ (s : Cursor) (p : List CursorPathLink) (l : CursorPathLink) (n : MathNode),
      s.path = p ++ [l] → resolveEnclosingNode s.root s.path = some n →
      (l.childIndex < n.children.length - 1 → 1 ≤ (s.moveDown).notifies) ∧
      (¬(l.childIndex < n.children.length - 1) →
        (s.moveDown).state = s ∧ (s.moveDown).notifies = 0)) ∧
    (∀ s : Cursor, s.path = [] →
      (s.moveUp).state = s ∧ (s.moveUp).notifies = 0) ∧
    (∀ (s : Cursor) (p : List CursorPathLink) (l : CursorPathLink) (n : MathNode),
      s.path = p ++ [l] → resolveEnclosingNode s.root s.path = some n →
      (0 < l.childIndex → 1 ≤ (s.moveUp).notifies) ∧
      (l.childIndex = 0 →
        (s.moveUp).state = s ∧ (s.moveUp).notifies = 0)) := by
  have hcore : ∀ (s : Cursor) (node : MathNode),
      (s.insertAtCursorCore node).err = none → 1 ≤ (s.insertAtCursorCore node).notifies := by
    intro s node h
    unfold Cursor.insertAtCursorCore at h ⊢
    cases h1 : getExprAt s.root s.path with
    | none => rw [h1] at h; simp at h
    | some e =>
      cases h2 : setExprAt s.root s.path (insertNode e s.cursorIndex node) with
      | none => simp [h1, h2] at h
      | some root' => simp [h1, h2]
  have hdownRoot : ∀ s : Cursor, s.path = [] →
      (s.moveDown).state = s ∧ (s.moveDown).notifies = 0 := by
    intro s hroot
    rw [moveDown_root hroot]
    exact ⟨rfl, rfl⟩
  have hdownTop : ∀ (s : Cursor) (p : List CursorPathLink) (l : CursorPathLink)
      (n : MathNode), s.path = p ++ [l] → resolveEnclosingNode s.root s.path = some n →
      (l.childIndex < n.children.length - 1 → 1 ≤ (s.moveDown).notifies) ∧
      (¬(l.childIndex < n.children.length - 1) →
        (s.moveDown).state = s ∧ (s.moveDown).notifies = 0) := by
    intro s p l n hp hres
    rw [hp] at hres
    have hdecomp := hres
    rw [resolveEnclosingNode_concat] at hdecomp
    obtain ⟨ep, hep, hn⟩ := Option.bind_eq_some.mp hdecomp
    constructor
    · intro hlt
      have hD : s.moveDown = (s.leaveNode Direction.left).andThen fun s1 =>
          s1.enterNode l.nodeIndex (l.childIndex + 1) Direction.left := by
        simp [Cursor.moveDown, hp, List.getLast?_concat, hres, hlt]
      rw [hD, leaveNode_ok hp Direction.left]
      simp [OpResult.andThen]
    · intro hb
      rw [moveDown_noop hp hep hn hb]
      exact ⟨rfl, rfl⟩
  have hupRoot : ∀ s : Cursor, s.path = [] →
      (s.moveUp).state = s ∧ (s.moveUp).notifies = 0 := by
    intro s hroot
    rw [moveUp_root hroot]
    exact ⟨rfl, rfl⟩
  have hupTop : ∀ (s : Cursor) (p : List CursorPathLink) (l : CursorPathLink)
      (n : MathNode), s.path = p ++ [l] → resolveEnclosingNode s.root s.path = some n →
      (0 < l.childIndex → 1 ≤ (s.moveUp).notifies) ∧
      (l.childIndex = 0 →
        (s.moveUp).state = s ∧ (s.moveUp).notifies = 0) := by
    intro s p l n hp hres
    rw [hp] at hres
    have hdecomp := hres
    rw [resolveEnclosingNode_concat] at hdecomp
    obtain ⟨ep, hep, hn⟩ := Option.bind_eq_some.mp hdecomp
    constructor
    · intro hpos
      have hU : s.moveUp = (s.leaveNode Direction.left).andThen fun s1 =>
          s1.enterNode l.nodeIndex (l.childIndex - 1) Direction.right := by
        simp [Cursor.moveUp, hp, List.getLast?_concat, hres, hpos]
      rw [hU, leaveNode_ok hp Direction.left]
      simp [OpResult.andThen]
    · intro hz
      rw [moveUp_noop hp hep hn hz]
      exact ⟨rfl, rfl⟩
  refine ⟨?_, ?_, ?_, ?_, fun s c i => hcore s (MathCharacter i c), hcore, ?_, ?_,
    hdownRoot, hdownTop, hupRoot, hupTop⟩
  · intro s ni ci d h
    cases d with
    | right => simp [Cursor.enterNode]
    | left =>
      unfold Cursor.enterNode at h ⊢
      cases h1 : getExprAt s.root (s.path ++ [⟨ni, ci⟩]) with
      | none => simp [h1] at h
      | some e => simp [h1]
  · intro s d h
    unfold Cursor.leaveNode at h ⊢
    cases h1 : s.path.getLast? with
    | none => simp [h1] at h
    | some link => simp [h1]
  · intro s h
    exact thenNotify_notifies_pos _ h
  · intro s h
    exact thenNotify_notifies_pos _ h
  · intro s h
    unfold Cursor.deleteCharacterAtCursor at h ⊢
    cases h1 : getExprAt s.root s.path with
    | none => simp [h1] at h
    | some e =>
      cases h2 : removeNthNode e ((s.cursorIndex : Int) - 1) with
      | error msg => simp [h1, h2] at h
      | ok e' =>
        cases h3 : setExprAt s.root s.path e' with
        | none => simp [h1, h2, h3] at h
        | some root' => simp [h1, h2, h3]
  · intro s h
    unfold Cursor.removeEnclosingNode at h ⊢
    cases h1 : s.path.getLast? with
    | none => simp [h1] at h
    | some link =>
      cases h2 : getExprAt s.root s.path.dropLast with
      | none => simp [h1, h2] at h
      | some e =>
        cases h3 : removeNthNode e (link.nodeIndex : Int) with
        | error msg => simp [h1, h2, h3] at h
        | ok e' =>
          cases h4 : setExprAt s.root s.path.dropLast e' with
          | none => simp [h1, h2, h3, h4] at h
          | some root' => simp [h1, h2, h3, h4]

/-- Witness for the amended C5: the boundary no-op — `moveDown` inside the denominator
(the fraction's last child) — leaves the state unchanged and invokes no callback. -/
theorem notify_spec_amended_witness :
    (Cursor.moveDown
      { root := [Fraction "f"], path := [⟨0, 1⟩], cursorIndex := 0,
        focused := false, blinkState := true }).state =
      { root := [Fraction "f"], path := [⟨0, 1⟩], cursorIndex := 0,
        focused := false, blinkState := true } ∧
    (Cursor.moveDown
      { root := [Fraction "f"], path := [⟨0, 1⟩], cursorIndex := 0,
        focused := false, blinkState := true }).notifies = 0 :=
  (notify_spec_amended.2.2.2.2.2.2.2.2.2.1
    { root := [Fraction "f"], path := [⟨0, 1⟩], cursorIndex := 0,
      focused := false, blinkState := true }
    [] ⟨0, 1⟩ (Fraction "f") rfl rfl).2 (by decide)
